import Mathlib

/-!
# Verification of the gdm dependency manager (`gdm/source.py`, `gdm/config.py`)

A shallow embedding of the core of gdm, a git dependency manager.  Filesystem
paths are lists of components; the process state (current working directory,
directories, git repositories, symlinks, nested configuration files) is an
explicit `World` threaded through an effect monad `GdmM` that also records a
trace of the external commands issued (clone/fetch/checkout/mkdir/cd/ln/rm),
mirroring the calls made through `gdm/shell.py` and the `gdm.git` adapter.

`gdm/git.py`, `gdm/common.py` and `gdm/exceptions.py` are not part of the
sources; the VCS adapter and the exception taxonomy are modelled from the
spec's interface contract (section 6) where noted.
-/

/-- A filesystem path, as a list of components (absolute). -/
abbrev FsPath := List String

/-- Modelled from the spec: the observable state the VCS adapter
(`gdm/git.py`, not under the sources) reports for one repository working
tree: its remote URL, the current branch / commit hash / tag, and whether
the tree has local modifications (tracked changes, and separately untracked
files which are only reported when the adapter is asked to include them). -/
structure RepoState where
  url : String
  branch : String
  hash : String
  tag : String
  dirtyTracked : Bool
  dirtyUntracked : Bool
deriving Repr, DecidableEq

/-- Modelled from the spec: `hasLocalChanges(includeUntracked)` of the VCS
adapter contract — tracked modifications always count, untracked files only
when `includeUntracked` is set. -/
def RepoState.reportsChanges (r : RepoState) (includeUntracked : Bool) : Bool :=
  r.dirtyTracked || (includeUntracked && r.dirtyUntracked)

/-- One declared dependency (`Source` in `gdm/source.py`): `git` and `ln`
arguments `repo`, `dir`, `rev`, `link`. -/
structure Source where
  repo : String
  dir : String
  rev : String
  link : Option String
deriving Repr, DecidableEq

/-- `Source.DIRTY` sentinel. -/
def Source.DIRTY : String := "<dirty>"

/-- `Source.UNKNOWN` sentinel. -/
def Source.UNKNOWN : String := "<unknown>"

/-- The contents of a dependency declaration file found in some directory
(`location`, `sources`, `sources_locked`), as deserialized by `gdm.config.load`. -/
structure ConfigData where
  filename : String
  location : String
  sources : List Source
  sources_locked : List Source
deriving Repr, DecidableEq

/-- The filesystem-and-VCS state visible to the program: which paths are
git working trees (and their adapter-reported state), which are plain
directories, symlinks (mapped to the link source they point at), plain
files, and which directories hold a dependency declaration file. -/
structure FsState where
  repos : FsPath → Option RepoState
  links : FsPath → Option FsPath
  dirs : FsPath → Bool
  files : FsPath → Bool
  configs : FsPath → Option ConfigData

/-- `os.path.isdir`: a path is a directory when it is a git working tree or a
plain directory. -/
def FsState.isDir (fs : FsState) (p : FsPath) : Bool :=
  (fs.repos p).isSome || fs.dirs p

/-- `os.path.islink`. -/
def FsState.isLink (fs : FsState) (p : FsPath) : Bool :=
  (fs.links p).isSome

/-- `os.path.exists`. -/
def FsState.existsAt (fs : FsState) (p : FsPath) : Bool :=
  fs.isDir p || fs.isLink p || fs.files p

/-- The process-wide state: the current working directory (the sole shared
mutable resource, per spec section 5) plus the filesystem state. -/
structure World where
  cwd : FsPath
  fs : FsState

/-- The external commands the program can issue (through `gdm/shell.py` and
the VCS adapter); a run of the program records the list of effects it
performed, in order. -/
inductive Effect
  | cloneE (repo : String) (dir : String)
  | fetchE (repo : String) (rev : String)
  | checkoutE (rev : String) (fetch : Bool) (clean : Bool)
  | mkdirE (path : FsPath)
  | cdE (path : FsPath)
  | lnE (src : FsPath) (target : FsPath)
  | rmE (path : FsPath)
  | rmLinkE (path : FsPath)
  | logErrorE (msg : String)
  | updateFileE
deriving Repr, DecidableEq

/-- Modelled from the spec: the exception taxonomy of `gdm/exceptions.py`
(not under the sources), per spec section 7.  `outOfFuel` is an artifact of
the embedding: unbounded recursion through nested configuration files is
given an explicit recursion budget. -/
inductive GdmError
  | invalidConfig (msg : String)
  | invalidRepository (path : FsPath)
  | uncommittedChanges (path : FsPath)
  | preexistingLink (path : FsPath)
  | shellError (path : FsPath)
  | outOfFuel
deriving Repr, DecidableEq

/-- The effect monad: a computation transforms the world, may raise a
`GdmError` (side effects performed before the raise persist, as in Python),
and records the trace of external commands it issued. -/
def GdmM (α : Type) : Type := World → Except GdmError α × World × List Effect

instance : Monad GdmM where
  pure a := fun w => (.ok a, w, [])
  bind m f := fun w =>
    match m w with
    | (.ok a, w₁, t₁) =>
      match f a w₁ with
      | (r, w₂, t₂) => (r, w₂, t₁ ++ t₂)
    | (.error e, w₁, t₁) => (.error e, w₁, t₁)

/-- Read the current world (used for `os.getcwd`, `os.path` queries). -/
def getW : GdmM World := fun w => (.ok w, w, [])

/-- Raise an exception. -/
def throwE {α : Type} (e : GdmError) : GdmM α := fun w => (.error e, w, [])

/-- `shell.cd` with an absolute path. -/
def shellCd (p : FsPath) : GdmM Unit := fun w =>
  (.ok (), { w with cwd := p }, [.cdE p])

/-- `shell.cd` with a path relative to the current working directory (a
single component, as used by `Source.update_files` / `Source.identify`). -/
def shellCdRel (d : String) : GdmM Unit := fun w =>
  (.ok (), { w with cwd := w.cwd ++ [d] }, [.cdE (w.cwd ++ [d])])

/-- `shell.mkdir` (`mkdir -p path`). -/
def shellMkdir (p : FsPath) : GdmM Unit := fun w =>
  (.ok (), { w with fs := { w.fs with dirs := Function.update w.fs.dirs p true } },
   [.mkdirE p])

/-- `shell.rm` (`rm -rf path`); removes whatever is at the path.  (Removal
of the subtree below the path is not tracked; no claim depends on it.) -/
def shellRm (p : FsPath) : GdmM Unit := fun w =>
  (.ok (), { w with fs := { w.fs with
      repos := Function.update w.fs.repos p none,
      links := Function.update w.fs.links p none,
      dirs := Function.update w.fs.dirs p false,
      files := Function.update w.fs.files p false } }, [.rmE p])

/-- `os.remove` on a symlink (`Source.create_link`). -/
def osRemove (p : FsPath) : GdmM Unit := fun w =>
  (.ok (), { w with fs := { w.fs with links := Function.update w.fs.links p none } },
   [.rmLinkE p])

/-- `os.path.relpath path start` for absolute paths: strip the common
prefix, then climb out of what remains of `start`. -/
def dropCommon : FsPath → FsPath → FsPath × FsPath
  | a :: as, b :: bs => if a = b then dropCommon as bs else (a :: as, b :: bs)
  | as, bs => (as, bs)

/-- `os.path.relpath`. -/
def relpath (path start : FsPath) : FsPath :=
  let (p, s) := dropCommon path start
  s.map (fun _ => "..") ++ p

/-- `shell.ln`: create the parent directory when missing, then `ln -s`. -/
def shellLn (src target : FsPath) : GdmM Unit := do
  let w ← getW
  if !(w.fs.isDir target.dropLast) then
    shellMkdir target.dropLast
  fun w => (.ok (),
    { w with fs := { w.fs with links := Function.update w.fs.links target (some src) } },
    [.lnE src target])

/-- `log.error` (the only log call a claim observes: the unknown-dependency
report of `Config.install_deps`). -/
def logError (msg : String) : GdmM Unit := fun w =>
  (.ok (), w, [.logErrorE msg])

/-- `yorm.update_file(self)` in `Config.lock_deps`: persist the config. -/
def yormUpdateFile : GdmM Unit := fun w =>
  (.ok (), w, [.updateFileE])

/-- Read the adapter state of the repository at the current working
directory; git commands issued outside a working tree fail with the uniform
external-command-failure condition. -/
def gitRepoAt : GdmM RepoState := fun w =>
  match w.fs.repos w.cwd with
  | some r => (.ok r, w, [])
  | none => (.error (.shellError w.cwd), w, [])

/-- `git.changes(include_untracked)`: query for local modifications. -/
def gitChanges (includeUntracked : Bool) : GdmM Bool := do
  let r ← gitRepoAt
  pure (r.reportsChanges includeUntracked)

/-- `git.get_branch()`. -/
def gitGetBranch : GdmM String := do
  let r ← gitRepoAt
  pure r.branch

/-- `git.get_hash()`. -/
def gitGetHash : GdmM String := do
  let r ← gitRepoAt
  pure r.hash

/-- `git.get_tag()`. -/
def gitGetTag : GdmM String := do
  let r ← gitRepoAt
  pure r.tag

/-- `git.get_url()`. -/
def gitGetUrl : GdmM String := do
  let r ← gitRepoAt
  pure r.url

/-- Modelled from the spec: the state of a freshly cloned working tree —
clean, on the default branch. -/
def freshClone (url : String) : RepoState :=
  { url := url, branch := "master", hash := "", tag := "", dirtyTracked := false,
    dirtyUntracked := false }

/-- `git.clone(repo, dir)`: create a new working tree at `cwd/dir`. -/
def gitClone (url : String) (dir : String) : GdmM Unit := fun w =>
  (.ok (), { w with fs := { w.fs with
      repos := Function.update w.fs.repos (w.cwd ++ [dir]) (some (freshClone url)) } },
   [.cloneE url dir])

/-- `git.fetch(repo, rev)`: fetch a remote ref (updates remote-tracking
state only; the reported working-tree state is unchanged). -/
def gitFetch (url rev : String) : GdmM Unit := fun w =>
  (.ok (), w, [.fetchE url rev])

/-- Modelled from the spec: `checkoutOrUpdate(ref, fetch, cleanUntracked)` —
after it the working tree is at `rev`, and when `cleanUntracked` is set
untracked files are discarded as part of the update. -/
def RepoState.checkout (r : RepoState) (rev : String) (clean : Bool) : RepoState :=
  let r1 := if clean then { r with dirtyUntracked := false } else r
  if rev = r1.branch ∨ rev = r1.hash ∨ rev = r1.tag then r1
  else { r1 with branch := rev }

/-- `git.update(rev, fetch, clean)`: check the working tree at the current
directory out at `rev`. -/
def gitUpdate (rev : String) (fetchFlag clean : Bool) : GdmM Unit := fun w =>
  match w.fs.repos w.cwd with
  | none => (.error (.shellError w.cwd), w, [])
  | some r =>
    (.ok (), { w with fs := { w.fs with
        repos := Function.update w.fs.repos w.cwd (some (r.checkout rev clean)) } },
     [.checkoutE rev fetchFlag clean])

/-- `Source.__init__(repo, name, rev, link)`: construction validates that
`repo` and `dir` are non-empty, raising `InvalidConfig` otherwise. -/
def Source.init (repo name rev : String) (link : Option String) :
    Except GdmError Source :=
  if repo = "" then .error (.invalidConfig "repo missing")
  else if name = "" then .error (.invalidConfig "dir missing")
  else .ok { repo := repo, dir := name, rev := rev, link := link }

/-- `Source.__eq__`: equality solely by `dir`. -/
def Source.eq (a b : Source) : Bool := a.dir == b.dir

/-- `Source.__ne__`. -/
def Source.ne (a b : Source) : Bool := a.dir != b.dir

/-- `Source.__lt__`: ordering solely by `dir`. -/
def Source.lt (a b : Source) : Bool := decide (a.dir < b.dir)

/-- The boolean `<=` used when sorting a list of Sources with a stable sort
driven by `Source.__lt__` (`a` may stay before `b` iff `not (b < a)`). -/
def Source.sortLe (a b : Source) : Bool := !(Source.lt b a)

/-- `Source.update_files(force, fetch, clean)`: clone the working tree when
absent, enter it, refuse uncommitted changes unless forced, fetch the
target revision unless it is already current (or always when `fetch`), and
check the tree out at the target revision. -/
def Source.update_files (s : Source) (force fetch clean : Bool) : GdmM Unit := do
  let w ← getW
  (if !(w.fs.existsAt (w.cwd ++ [s.dir])) then gitClone s.repo s.dir else pure ())
  shellCdRel s.dir
  (if !force then do
      let dirty ← gitChanges clean
      if dirty then do
        let w ← getW
        throwE (.uncommittedChanges w.cwd)
      else pure ()
    else pure ())
  let doFetch ←
    if fetch then
      pure true
    else do
      let b ← gitGetBranch
      let h ← gitGetHash
      let t ← gitGetTag
      pure (decide (¬(s.rev = b ∨ s.rev = h ∨ s.rev = t)))
  (if doFetch then gitFetch s.repo s.rev else pure ())
  gitUpdate s.rev fetch clean

/-- `Source.create_link(root, force)`: re-link an existing symlink, refuse a
pre-existing non-symlink unless forced, then create the symlink. -/
def Source.create_link (s : Source) (root : FsPath) (force : Bool) : GdmM Unit := do
  match s.link with
  | none => pure ()
  | some link => do
    let w ← getW
    let target := root ++ [link]
    let src := relpath w.cwd target.dropLast
    (if w.fs.isLink target then
      osRemove target
    else if w.fs.existsAt target then
      (if force then shellRm target else throwE (.preexistingLink target))
    else pure ())
    shellLn src target

/-- `Source.identify(allow_dirty, allow_missing)`: path, remote URL and
resolved revision of the working tree. -/
def Source.identify (s : Source) (allow_dirty allow_missing : Bool) :
    GdmM (FsPath × String × String) := do
  let w ← getW
  if w.fs.isDir (w.cwd ++ [s.dir]) then do
    shellCdRel s.dir
    let w ← getW
    let path := w.cwd
    let url ← gitGetUrl
    let dirty ← gitChanges false
    if dirty then do
      if !allow_dirty then
        throwE (.uncommittedChanges w.cwd)
      pure (path, url, Source.DIRTY)
    else do
      let h ← gitGetHash
      pure (path, url, h)
  else if allow_missing then do
    let w ← getW
    pure (w.cwd, "<missing>", Source.UNKNOWN)
  else do
    let w ← getW
    throwE (.invalidRepository (w.cwd ++ [s.dir]))

/-- `Source.lock()`: `identify(allow_missing=False)` (note: `allow_dirty`
is left at its default `True`), then construct a new Source pinned at the
resolved revision. -/
def Source.lock (s : Source) : GdmM Source := do
  let (_, _, revision) ← s.identify true false
  match Source.init s.repo s.dir revision s.link with
  | .error e => throwE e
  | .ok t => pure t

/-- A dependency set (`Config` in `gdm/config.py`): project root, the
declaration filename, the materialization directory name, and the floating
and locked source lists. -/
structure Config where
  root : FsPath
  filename : String
  location : String
  sources : List Source
  sources_locked : List Source
deriving Repr, DecidableEq

/-- `Config.location_path`: the full path to the sources location. -/
def Config.location_path (c : Config) : FsPath := c.root ++ [c.location]

/-- `Config._get_sources(use_locked)`: the three-way effective source
selection policy. -/
def Config._get_sources (c : Config) (use_locked : Option Bool) : List Source :=
  match use_locked with
  | some true => if c.sources_locked.isEmpty then [] else c.sources_locked
  | some false => c.sources
  | none => if c.sources_locked.isEmpty then c.sources else c.sources_locked

/-- The `Config` that `gdm.config.load()` builds from a declaration file
found in `root` (`load` scans the directory listing for one of the
recognized filenames; the embedding keys declaration files by directory). -/
def configOf (root : FsPath) (d : ConfigData) : Config :=
  { root := root, filename := d.filename, location := d.location,
    sources := d.sources, sources_locked := d.sources_locked }

/-- `gdm.config.load()` at the current working directory. -/
def loadConfig : GdmM (Option Config) := do
  let w ← getW
  match w.fs.configs w.cwd with
  | none => pure none
  | some d => pure (some (configOf w.cwd d))

/-- The recursion step of `Config.install_deps`: when a nested declaration
file was found (`config = load()`), recurse into it (the recursive call
itself is supplied as `nest`); a level with no nested declaration
contributes no count. -/
def nestedInstall (nest : Config → GdmM Nat) (here : FsPath) :
    Option ConfigData → GdmM Nat
  | none => pure 0
  | some d => nest (configOf here d)

/-- The body of the `for source in sources` loop of
`Config.install_deps`: skip sources whose `dir` is not requested, update
and link the requested ones, recurse into a nested declaration file found
inside the just-updated working tree, and restore the location directory
before the next sibling.  Returns the accumulated count together with the
requested names never matched. -/
def installLoop (nest : Config → GdmM Nat) (locPath root : FsPath)
    (force fetch clean : Bool) : List Source → List String → GdmM (Nat × List String)
  | [], dirs => pure (0, dirs)
  | s :: rest, dirs =>
    if dirs.contains s.dir then do
      let dirs1 := dirs.erase s.dir
      s.update_files force fetch clean
      s.create_link root force
      let w ← getW
      let nested ← nestedInstall nest w.cwd (w.fs.configs w.cwd)
      shellCd locPath
      let (cnt, rem) ← installLoop nest locPath root force fetch clean rest dirs1
      pure (cnt + nested + 1, rem)
    else
      installLoop nest locPath root force fetch clean rest dirs

/-- `Config.install_deps(*names, depth, update, recurse, force, fetch,
clean)`: get all sources.  `fuel` bounds the recursion through nested
declaration files (an artifact of the embedding; the Python original
recurses on the call stack). -/
def Config.install_deps (c : Config) (fuel : Nat) (names : List String)
    (depth : Option Nat) (update recurse force fetch clean : Bool) : GdmM Nat :=
  match fuel with
  | 0 => throwE .outOfFuel
  | fuel + 1 =>
    if depth = some 0 then
      pure 0
    else do
      let w ← getW
      (if !(w.fs.isDir c.location_path) then shellMkdir c.location_path else pure ())
      shellCd c.location_path
      let sources := c._get_sources (if update then some false else none)
      let dirs := if names.isEmpty then sources.map (fun s => s.dir) else names
      let (count, remaining) ←
        installLoop
          (fun cfg => cfg.install_deps fuel [] (depth.map (· - 1))
            (update && recurse) recurse force fetch clean)
          c.location_path c.root force fetch clean sources dirs
      if remaining.isEmpty then
        pure count
      else do
        logError ("No such dependency: " ++ String.intercalate " " remaining)
        pure 0
termination_by fuel

/-- The body of the `for source in sources` loop of `Config.lock_deps`:
skip sources whose `dir` is not requested; for each requested one, find the
matching-by-`dir` entry of `sources_locked`, lock the source, and replace
the entry (or append when there is none), restoring the location directory
afterwards. -/
def lockLoop (locPath : FsPath) (dirs : List String) :
    List Source → Nat → List Source → GdmM (Nat × List Source)
  | [], count, locked => pure (count, locked)
  | s :: rest, count, locked =>
    if !(dirs.contains s.dir) then
      lockLoop locPath dirs rest count locked
    else do
      let idx := locked.findIdx? (fun t => Source.eq t s)
      let ls ← s.lock
      let locked1 :=
        match idx with
        | none => locked ++ [ls]
        | some i => locked.set i ls
      shellCd locPath
      lockLoop locPath dirs rest (count + 1) locked1

/-- `Config.lock_deps(*names, obey_existing)`: lock down the immediate
dependency versions; persists the config (`yorm.update_file`) only when at
least one source was locked.  Returns the count together with the updated
config (the Python original mutates `self.sources_locked` in place). -/
def Config.lock_deps (c : Config) (names : List String) (obey_existing : Bool) :
    GdmM (Nat × Config) := do
  shellCd c.location_path
  let srcs := c._get_sources (some obey_existing)
  let dirs := if names.isEmpty then srcs.map (fun s => s.dir) else names
  let (count, locked) ← lockLoop c.location_path dirs srcs 0 c.sources_locked
  (if count ≠ 0 then yormUpdateFile else pure ())
  pure (count, { c with sources_locked := locked })

/-- Does a trace entry fetch a remote ref? -/
def Effect.isFetch : Effect → Bool
  | .fetchE _ _ => true
  | _ => false

/-- Does a trace entry materialize source content (clone, fetch, checkout
or link creation)? -/
def Effect.isMaterial : Effect → Bool
  | .cloneE _ _ => true
  | .fetchE _ _ => true
  | .checkoutE _ _ _ => true
  | .lnE _ _ => true
  | _ => false

/-- Is a trace entry the unknown-dependency error report? -/
def Effect.isLogError : Effect → Bool
  | .logErrorE _ => true
  | _ => false

/-- One source is fully up to date in a filesystem state: its working tree
exists under the location directory, is clean, already has the target
revision as its current branch, hash or tag, and (when it declares a link
alias) its symlink is already in place with the parent directory present. -/
def srcUpToDate (fs : FsState) (locPath root : FsPath) (s : Source) : Bool :=
  match fs.repos (locPath ++ [s.dir]) with
  | none => false
  | some r =>
    !r.dirtyTracked && !r.dirtyUntracked &&
    (s.rev == r.branch || s.rev == r.hash || s.rev == r.tag) &&
    (match s.link with
     | none => true
     | some l =>
       fs.isDir ((root ++ [l]).dropLast) &&
       fs.links (root ++ [l]) ==
         some (relpath (locPath ++ [s.dir]) ((root ++ [l]).dropLast)))

/-- A whole dependency tree is up to date in a filesystem state, down to
the given recursion budget: the location directory exists and every
effective source (for the given `update`/`recurse` flags) is up to date,
including, recursively, whatever nested declaration file its working tree
holds. -/
def cfgUpToDate : Nat → Bool → Bool → Config → FsState → Bool
  | 0, _, _, _, _ => false
  | fuel + 1, update, recurse, c, fs =>
    fs.isDir c.location_path &&
    (c._get_sources (if update then some false else none)).all (fun s =>
      srcUpToDate fs c.location_path c.root s &&
      (match fs.configs (c.location_path ++ [s.dir]) with
       | none => true
       | some d => cfgUpToDate fuel (update && recurse) recurse
           (configOf (c.location_path ++ [s.dir]) d) fs))

/-- The count `Config.install_deps` reports on an up-to-date tree, as a
pure function of the (unchanged) filesystem state: the loop of
`installLoop`, mirrored without effects. -/
def upLoopCount (nestCount : Config → Nat) (fs : FsState) (locPath : FsPath) :
    List Source → List String → Nat × List String
  | [], dirs => (0, dirs)
  | s :: rest, dirs =>
    if dirs.contains s.dir then
      let nested :=
        match fs.configs (locPath ++ [s.dir]) with
        | none => 0
        | some d => nestCount (configOf (locPath ++ [s.dir]) d)
      let (cnt, rem) := upLoopCount nestCount fs locPath rest (dirs.erase s.dir)
      (cnt + nested + 1, rem)
    else
      upLoopCount nestCount fs locPath rest dirs

/-- The count `Config.install_deps` reports on an up-to-date tree
(mirrors `Config.install_deps` without effects). -/
def upCount (fuel : Nat) (c : Config) (names : List String) (depth : Option Nat)
    (update recurse : Bool) (fs : FsState) : Nat :=
  match fuel with
  | 0 => 0
  | fuel + 1 =>
    if depth = some 0 then 0
    else
      let sources := c._get_sources (if update then some false else none)
      let dirs := if names.isEmpty then sources.map (fun s => s.dir) else names
      let (count, remaining) :=
        upLoopCount
          (fun cfg => upCount fuel cfg [] (depth.map (· - 1))
            (update && recurse) recurse fs)
          fs c.location_path sources dirs
      if remaining.isEmpty then count else 0
termination_by fuel

/-- Replace the first entry comparing equal (by `dir`) to `s` with `ls`,
appending when there is none — the effect of the `index`/`except
ValueError: append`/`else: assign` block of `Config.lock_deps` on
`sources_locked`, in direct-recursion form (proved equivalent below). -/
def replaceOrAppend : List Source → Source → Source → List Source
  | [], _, ls => [ls]
  | x :: l, s, ls =>
    if Source.eq x s then ls :: l else x :: replaceOrAppend l s ls

/-- Fixture: a clean working tree checked out at `master`. -/
def demoRepoClean : RepoState :=
  { url := "https://example.org/dep.git", branch := "master", hash := "abc123",
    tag := "", dirtyTracked := false, dirtyUntracked := false }

/-- Fixture: the same working tree with uncommitted tracked changes. -/
def demoRepoDirty : RepoState := { demoRepoClean with dirtyTracked := true }

/-- Fixture: one declared dependency. -/
def demoSource : Source :=
  { repo := "https://example.org/dep.git", dir := "dep", rev := "master", link := none }

/-- Fixture: a project declaring `demoSource`, with an empty locked list. -/
def demoConfig : Config :=
  { root := ["proj"], filename := "gdm.yml", location := "gdm_sources",
    sources := [demoSource], sources_locked := [] }

/-- Fixture: filesystem with the project root, its materialization
directory, and a clean clone of `demoSource` already at `master`. -/
def demoFsClean : FsState :=
  { repos := fun p => if p = ["proj", "gdm_sources", "dep"] then some demoRepoClean else none,
    links := fun _ => none,
    dirs := fun p => p = ["proj"] || p = ["proj", "gdm_sources"],
    files := fun _ => false,
    configs := fun _ => none }

/-- Fixture: the same filesystem with the clone dirty. -/
def demoFsDirty : FsState :=
  { demoFsClean with
    repos := fun p => if p = ["proj", "gdm_sources", "dep"] then some demoRepoDirty else none }

/-- Fixture: process at the project root over the clean filesystem. -/
def demoWorldRoot : World := { cwd := ["proj"], fs := demoFsClean }

/-- Fixture: process inside the materialization directory, clean clone. -/
def demoWorldLoc : World := { cwd := ["proj", "gdm_sources"], fs := demoFsClean }

/-- Fixture: process inside the materialization directory, dirty clone. -/
def demoWorldDirty : World := { cwd := ["proj", "gdm_sources"], fs := demoFsDirty }

/-- Decidable equality for `Except` results (not provided by the core
library), used to evaluate runs on concrete inputs. -/
instance exceptDecEq {ε α : Type} [DecidableEq ε] [DecidableEq α] :
    DecidableEq (Except ε α)
  | .ok a, .ok b =>
    if h : a = b then .isTrue (congrArg Except.ok h)
    else .isFalse (fun hh => h (Except.ok.inj hh))
  | .error a, .error b =>
    if h : a = b then .isTrue (congrArg Except.error h)
    else .isFalse (fun hh => h (Except.error.inj hh))
  | .ok _, .error _ => .isFalse (fun hh => Except.noConfusion hh)
  | .error _, .ok _ => .isFalse (fun hh => Except.noConfusion hh)

theorem run_pure {α : Type} (a : α) (w : World) :
    (pure a : GdmM α) w = (.ok a, w, []) := rfl

theorem run_bind {α β : Type} (m : GdmM α) (f : α → GdmM β) (w : World) :
    (m >>= f) w =
      match m w with
      | (.ok a, w₁, t₁) =>
        match f a w₁ with
        | (r, w₂, t₂) => (r, w₂, t₁ ++ t₂)
      | (.error e, w₁, t₁) => (.error e, w₁, t₁) := rfl

theorem run_getW (w : World) : getW w = (.ok w, w, []) := rfl

/-- C10: in `Source.identify`, `allow_missing` takes precedence over
`allow_dirty`: when the directory does not exist,
`identify(allow_dirty=False, allow_missing=True)` returns
`(cwd, "<missing>", UNKNOWN)` without raising and without side effects —
the dirty-tree check is only evaluated when the directory exists. -/
theorem identify_missing_allowMissing_precedence (s : Source) (w : World)
    (h : w.fs.isDir (w.cwd ++ [s.dir]) = false) :
    s.identify false true w = (.ok (w.cwd, "<missing>", Source.UNKNOWN), w, []) := by
  simp [Source.identify, run_bind, run_getW, h]

/-- Witness for C10 at a concrete missing directory. -/
theorem identify_missing_allowMissing_precedence_w :
    demoWorldLoc.fs.isDir (demoWorldLoc.cwd ++ ["ghost"]) = false ∧
    Source.identify { repo := "u", dir := "ghost", rev := "master", link := none }
        false true demoWorldLoc =
      (.ok (demoWorldLoc.cwd, "<missing>", Source.UNKNOWN), demoWorldLoc, []) :=
  ⟨by decide,
   identify_missing_allowMissing_precedence
     { repo := "u", dir := "ghost", rev := "master", link := none } demoWorldLoc
     (by decide)⟩

/-- C4: `install_deps` with `depth = 0` returns 0 immediately: the world is
untouched and no external command is issued, for every combination of the
other arguments (the depth check precedes creating or entering the
materialization directory). -/
theorem install_deps_depth_zero_noop (fuel : Nat) (c : Config) (names : List String)
    (update recurse force fetch clean : Bool) (w : World) :
    c.install_deps (fuel + 1) names (some 0) update recurse force fetch clean w =
      (.ok 0, w, []) := by
  simp [Config.install_deps, run_pure]

/-- C2: the three-way effective source selection policy of `_get_sources`:
`use_locked=False` always selects `sources`; `use_locked=True` selects
`sources_locked` when non-empty and the empty list otherwise (never falling
back to `sources`); unspecified prefers `sources_locked` when non-empty,
else `sources`. -/
theorem get_sources_three_way_policy (c : Config) :
    c._get_sources (some false) = c.sources ∧
    (c.sources_locked ≠ [] → c._get_sources (some true) = c.sources_locked) ∧
    (c.sources_locked = [] → c._get_sources (some true) = []) ∧
    (c.sources_locked ≠ [] → c._get_sources none = c.sources_locked) ∧
    (c.sources_locked = [] → c._get_sources none = c.sources) := by
  refine ⟨rfl, ?_, ?_, ?_, ?_⟩ <;> intro h <;>
    simp [Config._get_sources, List.isEmpty_iff, h]

/-- Witness for C2 on a config with a non-empty locked list and one with an
empty locked list. -/
theorem get_sources_three_way_policy_w :
    ({ demoConfig with sources_locked := [demoSource] } : Config).sources_locked ≠ [] ∧
    ({ demoConfig with sources_locked := [demoSource] } : Config)._get_sources (some true) =
      [demoSource] ∧
    demoConfig.sources_locked = [] ∧
    demoConfig._get_sources (some true) = [] ∧
    demoConfig._get_sources none = demoConfig.sources :=
  ⟨by decide,
   (get_sources_three_way_policy { demoConfig with sources_locked := [demoSource] }).2.1
     (by decide),
   by decide,
   (get_sources_three_way_policy demoConfig).2.2.1 (by decide),
   (get_sources_three_way_policy demoConfig).2.2.2.2 (by decide)⟩

/-- C7: `__eq__`, `__ne__` and `__lt__` of `Source` are determined solely
by `dir`: two Sources with equal `dir` compare equal whatever their other
fields, and a stable sort driven by `__lt__` orders any list of Sources
lexically by `dir`. -/
theorem source_comparison_solely_by_dir :
    (∀ a b : Source, (Source.eq a b = true ↔ a.dir = b.dir) ∧
      (Source.ne a b = true ↔ a.dir ≠ b.dir) ∧
      (Source.lt a b = true ↔ a.dir < b.dir)) ∧
    (∀ l : List Source,
      (l.mergeSort Source.sortLe).Pairwise (fun a b => a.dir ≤ b.dir)) := by
  constructor
  · intro a b
    refine ⟨?_, ?_, ?_⟩ <;> simp [Source.eq, Source.ne, Source.lt]
  · intro l
    have htrans : ∀ a b c : Source, Source.sortLe a b = true →
        Source.sortLe b c = true → Source.sortLe a c = true := by
      intro a b c hab hbc
      simp only [Source.sortLe, Source.lt, Bool.not_eq_true'] at hab hbc ⊢
      simp only [decide_eq_false_iff_not, not_lt] at hab hbc ⊢
      exact le_trans hab hbc
    have htotal : ∀ a b : Source, (Source.sortLe a b || Source.sortLe b a) = true := by
      intro a b
      simp only [Source.sortLe, Source.lt, Bool.or_eq_true, Bool.not_eq_true',
        decide_eq_false_iff_not, not_lt]
      exact le_total a.dir b.dir
    have h := @List.sorted_mergeSort Source Source.sortLe htrans htotal l
    exact h.imp (fun hab => by
      simpa [Source.sortLe, Source.lt, not_lt] using hab)

/-- C8: `Source.__init__` raises `InvalidConfig` when `repo` or `dir` is
empty; every successfully constructed Source has both fields non-empty. -/
theorem source_init_requires_nonempty (repo name rev : String) (link : Option String) :
    ((repo = "" ∨ name = "") →
      ∃ m, Source.init repo name rev link = .error (.invalidConfig m)) ∧
    (∀ s, Source.init repo name rev link = .ok s → s.repo ≠ "" ∧ s.dir ≠ "") := by
  constructor
  · rintro (h | h)
    · exact ⟨"repo missing", by simp [Source.init, h]⟩
    · by_cases h1 : repo = ""
      · exact ⟨"repo missing", by simp [Source.init, h1]⟩
      · exact ⟨"dir missing", by simp [Source.init, h1, h]⟩
  · intro s hs
    rw [Source.init] at hs
    by_cases h1 : repo = ""
    · simp [h1] at hs
    · by_cases h2 : name = ""
      · simp [h1, h2] at hs
      · simp only [h1, h2, if_false, Except.ok.injEq] at hs
        subst hs
        exact ⟨h1, h2⟩

/-- Witness for C8: an empty `repo` is rejected, an empty `dir` is
rejected, and a valid construction yields non-empty fields. -/
theorem source_init_requires_nonempty_w :
    (∃ m, Source.init "" "dep" "master" none = .error (.invalidConfig m)) ∧
    (∃ m, Source.init "u" "" "master" none = .error (.invalidConfig m)) ∧
    ({ repo := "u", dir := "dep", rev := "master", link := none } : Source).repo ≠ "" ∧
    ({ repo := "u", dir := "dep", rev := "master", link := none } : Source).dir ≠ "" :=
  ⟨(source_init_requires_nonempty "" "dep" "master" none).1 (Or.inl rfl),
   (source_init_requires_nonempty "u" "" "master" none).1 (Or.inr rfl),
   (source_init_requires_nonempty "u" "dep" "master" none).2
     { repo := "u", dir := "dep", rev := "master", link := none } rfl⟩

/-- C1 (code bug): `Source.lock` calls `identify(allow_missing=False)`
leaving `allow_dirty` at its default `True` (`gdm/source.py` line 132), so
locking a Source whose working tree has uncommitted changes does NOT raise
Uncommitted Changes: it succeeds and returns a Source whose revision is the
`<dirty>` display sentinel, and `Config.lock_deps` then writes that entry
into `sources_locked` and persists the file — contradicting the spec
("dirty or missing state is a hard failure") and producing a lock file the
program itself cannot consume. -/
theorem lock_dirty_source_succeeds_with_dirty_sentinel :
    (demoSource.lock demoWorldDirty).1 =
      .ok { repo := "https://example.org/dep.git", dir := "dep", rev := "<dirty>",
            link := none } ∧
    (demoConfig.lock_deps [] false demoWorldDirty).1 =
      .ok (1, { demoConfig with sources_locked :=
        [{ repo := "https://example.org/dep.git", dir := "dep", rev := "<dirty>",
           link := none }] }) ∧
    Effect.updateFileE ∈ (demoConfig.lock_deps [] false demoWorldDirty).2.2 := by
  refine ⟨by decide, by decide, by decide⟩

/-- C6: when `force` is unset and the VCS adapter reports local
modifications (untracked files counting exactly when `clean` is set),
`Source.update_files` raises Uncommitted Changes naming the absolute path
of the working tree, leaving the filesystem untouched (the changes are not
discarded) and issuing no clone, fetch or checkout — its only effect is the
`cd` into the tree.  With `force` set the dirty check is skipped entirely
and the update proceeds to completion. -/
theorem update_files_dirty_hard_stop (s : Source) (fetch clean : Bool)
    (w : World) (r : RepoState)
    (hr : w.fs.repos (w.cwd ++ [s.dir]) = some r)
    (hd : r.reportsChanges clean = true) :
    s.update_files false fetch clean w =
      (.error (.uncommittedChanges (w.cwd ++ [s.dir])),
       { w with cwd := w.cwd ++ [s.dir] }, [.cdE (w.cwd ++ [s.dir])]) ∧
    (s.update_files true fetch clean w).1 = .ok () := by
  have hex : w.fs.existsAt (w.cwd ++ [s.dir]) = true := by
    simp [FsState.existsAt, FsState.isDir, hr]
  constructor
  · simp [Source.update_files, run_bind, run_getW, shellCdRel, gitChanges,
      gitRepoAt, throwE, hex, hr, hd]
  · cases fetch <;>
      by_cases hm : ¬s.rev = r.branch ∧ ¬s.rev = r.hash ∧ ¬s.rev = r.tag <;>
      simp [Source.update_files, run_bind, run_getW, shellCdRel, gitChanges,
        gitRepoAt, gitGetBranch, gitGetHash, gitGetTag, gitFetch, gitUpdate,
        throwE, run_pure, hex, hr, hd, hm]

/-- Witness for C6 at a concrete dirty working tree. -/
theorem update_files_dirty_hard_stop_w :
    demoWorldDirty.fs.repos (demoWorldDirty.cwd ++ [demoSource.dir]) = some demoRepoDirty ∧
    demoRepoDirty.reportsChanges true = true ∧
    (demoSource.update_files false false true demoWorldDirty =
      (.error (.uncommittedChanges (demoWorldDirty.cwd ++ [demoSource.dir])),
       { demoWorldDirty with cwd := demoWorldDirty.cwd ++ [demoSource.dir] },
       [.cdE (demoWorldDirty.cwd ++ [demoSource.dir])]) ∧
     (demoSource.update_files true false true demoWorldDirty).1 = .ok ()) :=
  ⟨by decide, by decide,
   update_files_dirty_hard_stop demoSource false true demoWorldDirty demoRepoDirty
     (by decide) (by decide)⟩

/-- Inversion of a successful bind: both stages succeeded and the trace is
the concatenation of their traces. -/
theorem bind_ok_inv {α β : Type} {m : GdmM α} {f : α → GdmM β} {w : World}
    {b : β} {w2 : World} {t : List Effect}
    (h : (m >>= f) w = (.ok b, w2, t)) :
    ∃ a w1 t1 t2, m w = (.ok a, w1, t1) ∧ f a w1 = (.ok b, w2, t2) ∧ t = t1 ++ t2 := by
  rw [run_bind] at h
  split at h
  · rename_i a w1 t1 hm
    rcases hf : f a w1 with ⟨r2, w2x, t2⟩
    rw [hf] at h
    cases r2 with
    | error e => simp at h
    | ok b2 =>
      simp only [Prod.mk.injEq, Except.ok.injEq] at h
      exact ⟨a, w1, t1, t2, hm, by rw [hf, h.1, h.2.1], h.2.2.symm⟩
  · rename_i e w1 t1 hm
    simp at h

/-- When no source of the list is requested, the install loop does nothing:
no count, no effect, the requested names returned unchanged. -/
theorem installLoop_all_skipped (nest : Config → GdmM Nat) (locPath root : FsPath)
    (force fetch clean : Bool) :
    ∀ (sources : List Source) (dirs : List String) (w : World),
      (∀ s ∈ sources, dirs.contains s.dir = false) →
      installLoop nest locPath root force fetch clean sources dirs w =
        (.ok (0, dirs), w, []) := by
  intro sources
  induction sources with
  | nil => intro dirs w _; rfl
  | cons s rest ih =>
    intro dirs w hskip
    have h1 : dirs.contains s.dir = false := hskip s (by simp)
    rw [installLoop, h1]
    simp only [Bool.false_eq_true, if_false]
    exact ih dirs w (fun x hx => hskip x (by simp [hx]))

/-- A requested name matching no source of the list survives the install
loop whenever the loop completes. -/
theorem installLoop_keeps_unmatched (nest : Config → GdmM Nat) (locPath root : FsPath)
    (force fetch clean : Bool) (n : String) :
    ∀ (sources : List Source) (dirs : List String) (w : World),
      (∀ s ∈ sources, s.dir ≠ n) → n ∈ dirs →
      ∀ cnt rem w1 t,
        installLoop nest locPath root force fetch clean sources dirs w =
          (.ok (cnt, rem), w1, t) →
        n ∈ rem := by
  intro sources
  induction sources with
  | nil =>
    intro dirs w _ hmem cnt rem w1 t h
    rw [installLoop] at h
    simp only [run_pure, Prod.mk.injEq, Except.ok.injEq] at h
    obtain ⟨⟨_, hrem⟩, _, _⟩ := h
    exact hrem ▸ hmem
  | cons s rest ih =>
    intro dirs w hnom hmem cnt rem w1 t h
    rw [installLoop] at h
    by_cases hc : dirs.contains s.dir
    · rw [if_pos hc] at h
      obtain ⟨x1, wa, ta, tb, hu, hf1, ht1⟩ := bind_ok_inv h
      obtain ⟨x2, wb, tc, td, hl, hf2, ht2⟩ := bind_ok_inv hf1
      obtain ⟨x3, wc, te, tf, hg, hf3, ht3⟩ := bind_ok_inv hf2
      obtain ⟨x4, wd, tg, th2, hn2, hf4, ht4⟩ := bind_ok_inv hf3
      obtain ⟨x5, we, ti, tj, hcd, hf5, ht5⟩ := bind_ok_inv hf4
      obtain ⟨p, wf, tk, tl, hloop, hf6, ht6⟩ := bind_ok_inv hf5
      rcases p with ⟨cnt2, rem2⟩
      simp only [run_pure, Prod.mk.injEq, Except.ok.injEq] at hf6
      have hrem : rem2 = rem := hf6.1.2
      have hmem1 : n ∈ dirs.erase s.dir :=
        (List.mem_erase_of_ne (fun hh => (hnom s (by simp)) hh.symm)).mpr hmem
      exact hrem ▸ ih (dirs.erase s.dir) we (fun x hx => hnom x (by simp [hx])) hmem1
        cnt2 rem2 wf _ hloop
    · rw [if_neg hc] at h
      exact ih dirs w (fun x hx => hnom x (by simp [hx])) hmem cnt rem w1 t h

/-- C3: an explicit name list containing a name matching no effective
source voids the whole install: whenever `install_deps` completes, it has
reported an unknown-dependency error and returned 0; and when the list
consists of just the unknown name, the run completes with count 0 and
materializes nothing (no clone, fetch, checkout or link), even though other
valid sources are declared. -/
theorem install_unknown_name_returns_zero (fuel : Nat) (c : Config)
    (names : List String) (depth : Option Nat)
    (update recurse force fetch clean : Bool) (w : World) (n : String)
    (hn : n ∈ names)
    (hnomatch : ∀ s ∈ c._get_sources (if update then some false else none), s.dir ≠ n)
    (hdepth : depth ≠ some 0) :
    (∀ count w1 t,
      c.install_deps (fuel + 1) names depth update recurse force fetch clean w =
        (.ok count, w1, t) →
      count = 0 ∧ ∃ m, Effect.logErrorE m ∈ t) ∧
    (names = [n] → ∃ w1 t,
      c.install_deps (fuel + 1) names depth update recurse force fetch clean w =
        (.ok 0, w1, t) ∧ t.all (fun e => !e.isMaterial) = true) := by
  have hdirs : (if names.isEmpty then
      (c._get_sources (if update then some false else none)).map (fun s => s.dir)
      else names) = names := by
    cases names with
    | nil => cases hn
    | cons a l => rfl
  constructor
  · intro count w1 t h
    rw [Config.install_deps, if_neg hdepth] at h
    obtain ⟨wg, wa, ta, tb, hg, h, ht1⟩ := bind_ok_inv h
    obtain ⟨u2, wb, tc, td, hmk, h, ht2⟩ := bind_ok_inv h
    obtain ⟨u3, wc, te, tf, hcd, h, ht3⟩ := bind_ok_inv h
    simp only [hdirs] at h
    obtain ⟨p, wd, tg, th2, hloop, h, ht4⟩ := bind_ok_inv h
    rcases p with ⟨cnt, rem⟩
    have hnrem : n ∈ rem :=
      installLoop_keeps_unmatched _ c.location_path c.root force fetch clean n
        _ names wc hnomatch hn cnt rem wd tg hloop
    have hre : rem.isEmpty = false := by
      cases rem with
      | nil => cases hnrem
      | cons a l => rfl
    simp only [hre, Bool.false_eq_true, if_false] at h
    obtain ⟨u4, we, ti, tj, hle, h, ht5⟩ := bind_ok_inv h
    simp only [run_pure, Prod.mk.injEq, Except.ok.injEq] at h
    obtain ⟨rfl, _, rfl⟩ := h
    simp only [logError, Prod.mk.injEq, Except.ok.injEq] at hle
    refine ⟨rfl, "No such dependency: " ++ String.intercalate " " rem, ?_⟩
    subst ht1 ht2 ht3 ht4 ht5
    simp [← hle.2.2]
  · intro hnames
    subst hnames
    have hskip : ∀ s ∈ c._get_sources (if update then some false else none),
        ([n] : List String).contains s.dir = false := by
      intro s hs
      simpa using hnomatch s hs
    have hloop : ∀ wX,
        installLoop
          (fun cfg => cfg.install_deps fuel [] (depth.map (· - 1))
            (update && recurse) recurse force fetch clean)
          c.location_path c.root force fetch clean
          (c._get_sources (if update then some false else none)) [n] wX =
        (.ok (0, [n]), wX, []) :=
      fun wX => installLoop_all_skipped _ _ _ _ _ _ _ _ wX hskip
    by_cases hdir : c.location_path ∈ ({p | w.fs.isDir p = true} : Set FsPath)
    · refine ⟨{ w with cwd := c.location_path },
        [.cdE c.location_path,
         .logErrorE ("No such dependency: " ++ String.intercalate " " [n])], ?_, ?_⟩
      · simp only [Set.mem_setOf_eq] at hdir
        simp [Config.install_deps, if_neg hdepth, run_bind, run_getW, shellCd,
          hdir, hloop, logError, run_pure, hdirs]
      · simp [Effect.isMaterial]
    · simp only [Set.mem_setOf_eq, Bool.not_eq_true] at hdir
      refine ⟨{ w with
          cwd := c.location_path,
          fs := { w.fs with
            dirs := Function.update w.fs.dirs c.location_path true } },
        [.mkdirE c.location_path, .cdE c.location_path,
         .logErrorE ("No such dependency: " ++ String.intercalate " " [n])], ?_, ?_⟩
      · simp [Config.install_deps, if_neg hdepth, run_bind, run_getW, shellCd,
          shellMkdir, hdir, hloop, logError, run_pure, hdirs]
      · simp [Effect.isMaterial]

/-- Witness for C3: requesting only `nonexistent` against a project that
declares a perfectly valid source installs nothing and returns 0. -/
theorem install_unknown_name_returns_zero_w :
    "nonexistent" ∈ ["nonexistent"] ∧
    (∀ s ∈ demoConfig._get_sources (if false then some false else none),
      s.dir ≠ "nonexistent") ∧
    (none : Option Nat) ≠ some 0 ∧
    (∃ w1 t, demoConfig.install_deps 1 ["nonexistent"] none false false false false true
        demoWorldRoot = (.ok 0, w1, t) ∧ t.all (fun e => !e.isMaterial) = true) :=
  ⟨by decide, by decide, by decide,
   (install_unknown_name_returns_zero 0 demoConfig ["nonexistent"] none
     false false false false true demoWorldRoot "nonexistent"
     (by decide) (by decide) (by decide)).2 rfl⟩

/-- Setting the current directory to its current value is a no-op. -/
theorem world_set_cwd_self (w : World) (p : FsPath) (h : w.cwd = p) :
    ({ w with cwd := p } : World) = w := by
  cases w
  simp_all

/-- The append-or-replace step of `Config.lock_deps` equals the direct
recursion `replaceOrAppend`. -/
theorem locked_update_eq_replaceOrAppend (s ls : Source) :
    ∀ locked : List Source,
      (match locked.findIdx? (fun t => Source.eq t s) with
       | none => locked ++ [ls]
       | some i => locked.set i ls) = replaceOrAppend locked s ls := by
  intro locked
  induction locked with
  | nil => rfl
  | cons x l ih =>
    rw [replaceOrAppend, List.findIdx?_cons]
    by_cases hp : Source.eq x s = true
    · rw [if_pos hp, if_pos hp]
      rfl
    · rw [if_neg hp, if_neg hp, List.findIdx?_succ]
      rcases hfi : List.findIdx? (fun t => Source.eq t s) l with _ | i
    
      · rw [hfi] at ih
        simp only [Option.map_none']
        simpa using congrArg (List.cons x) ih
      · rw [hfi] at ih
        simp only [Option.map_some']
        rw [List.set_cons_succ]
        simpa using congrArg (List.cons x) ih

/-- `replaceOrAppend` keeps every directory name already present and adds
(or keeps) that of the replacement. -/
theorem replaceOrAppend_preserves_dirs (s ls : Source) (hdir : ls.dir = s.dir)
    (d : String) :
    ∀ locked : List Source,
      ((∃ x ∈ locked, x.dir = d) ∨ d = ls.dir) →
      ∃ x ∈ replaceOrAppend locked s ls, x.dir = d := by
  intro locked
  induction locked with
  | nil =>
    rintro (⟨x, hx, _⟩ | rfl)
    · cases hx
    · exact ⟨ls, by simp [replaceOrAppend]⟩
  | cons x l ih =>
    intro h
    rw [replaceOrAppend]
    by_cases hp : Source.eq x s = true
    · rw [if_pos hp]
      rcases h with ⟨y, hy, hyd⟩ | rfl
      · rcases List.mem_cons.mp hy with rfl | hyl
        · refine ⟨ls, by simp, ?_⟩
          rw [hdir, ← (by simpa [Source.eq] using hp : y.dir = s.dir), hyd]
        · exact ⟨y, by simp [hyl], hyd⟩
      · exact ⟨ls, by simp, rfl⟩
    · rw [if_neg hp]
      rcases h with ⟨y, hy, hyd⟩ | rfl
      · rcases List.mem_cons.mp hy with rfl | hyl
        · exact ⟨y, by simp, hyd⟩
        · obtain ⟨z, hz, hzd⟩ := ih (Or.inl ⟨y, hyl, hyd⟩)
          exact ⟨z, by simp [hz], hzd⟩
      · obtain ⟨z, hz, hzd⟩ := ih (Or.inr rfl)
        exact ⟨z, by simp [hz], hzd⟩

/-- A Source whose working tree is present locks successfully (whatever the
dirty state), moving the process into the tree and producing a Source with
the same `dir`. -/
theorem lock_ok_of_present (s : Source) (w : World) (r : RepoState)
    (h1 : w.fs.repos (w.cwd ++ [s.dir]) = some r)
    (h2 : s.repo ≠ "") (h3 : s.dir ≠ "") :
    ∃ ls, s.lock w =
      (.ok ls, { w with cwd := w.cwd ++ [s.dir] }, [.cdE (w.cwd ++ [s.dir])]) ∧
      ls.dir = s.dir := by
  have hdir : w.fs.isDir (w.cwd ++ [s.dir]) = true := by
    simp [FsState.isDir, h1]
  by_cases hdirty : r.reportsChanges false = true
  · refine ⟨⟨s.repo, s.dir, Source.DIRTY, s.link⟩, ?_, rfl⟩
    simp [Source.lock, Source.identify, run_bind, run_getW, shellCdRel, gitGetUrl,
      gitChanges, gitRepoAt, gitGetHash, h1, hdir, hdirty, Source.init, h2, h3,
      run_pure]
  · refine ⟨⟨s.repo, s.dir, r.hash, s.link⟩, ?_, rfl⟩
    simp [Source.lock, Source.identify, run_bind, run_getW, shellCdRel, gitGetUrl,
      gitChanges, gitRepoAt, gitGetHash, h1, hdir, hdirty, Source.init, h2, h3,
      run_pure]

/-- The lock loop: every source whose `dir` is requested is locked and
append-or-replaced into the accumulator, everything else is skipped
silently; the count grows by exactly the number of requested sources and
the world is restored (the filesystem is never touched). -/
theorem lockLoop_locks_matched (locPath : FsPath) (dirs : List String) :
    ∀ (srcs : List Source) (count0 : Nat) (locked : List Source) (w : World),
      w.cwd = locPath →
      (∀ s ∈ srcs, dirs.contains s.dir = true →
        s.repo ≠ "" ∧ s.dir ≠ "" ∧ ∃ r, w.fs.repos (locPath ++ [s.dir]) = some r) →
      ∃ locked1 t,
        lockLoop locPath dirs srcs count0 locked w =
          (.ok (count0 + (srcs.filter (fun s => dirs.contains s.dir)).length, locked1),
           w, t) ∧
        t.all (fun e => !e.isLogError) = true ∧
        (∀ d, ((∃ x ∈ locked, x.dir = d) ∨
               (∃ s ∈ srcs, dirs.contains s.dir = true ∧ s.dir = d)) →
          ∃ x ∈ locked1, x.dir = d) := by
  intro srcs
  induction srcs with
  | nil =>
    intro count0 locked w hcwd hok
    refine ⟨locked, [], by simp [lockLoop, run_pure], rfl, ?_⟩
    rintro d (h | ⟨s, hs, _⟩)
    · exact h
    · cases hs
  | cons s rest ih =>
    intro count0 locked w hcwd hok
    by_cases hc : dirs.contains s.dir = true
    · obtain ⟨hrepo, hdirne, r, hr⟩ := hok s (by simp) hc
      obtain ⟨ls, hlock, hlsdir⟩ :=
        lock_ok_of_present s w r (by rw [hcwd]; exact hr) hrepo hdirne
      obtain ⟨locked1, t1, hrun, hall, hpres⟩ :=
        ih (count0 + 1) (replaceOrAppend locked s ls) w hcwd
          (fun x hx hcx => hok x (by simp [hx]) hcx)
      refine ⟨locked1, [.cdE (w.cwd ++ [s.dir]), .cdE locPath] ++ t1, ?_, ?_, ?_⟩
      · rw [lockLoop, hc]
        simp only [Bool.not_true, Bool.false_eq_true, if_false,
          locked_update_eq_replaceOrAppend]
        rw [run_bind, hlock]
        simp only [run_bind, shellCd, world_set_cwd_self w locPath hcwd, hrun,
          List.filter_cons, hc, if_true]
        simp only [Prod.mk.injEq, Except.ok.injEq, List.cons_append,
          List.nil_append, List.length_cons, true_and, and_true]
        omega
      · simpa [Effect.isLogError] using hall
      · rintro d (h | ⟨x, hx, hcx, hdx⟩)
        · exact hpres d (Or.inl
            (replaceOrAppend_preserves_dirs s ls hlsdir d _ (Or.inl h)))
        · rcases List.mem_cons.mp hx with hxs | hxr
          · exact hpres d (Or.inl (replaceOrAppend_preserves_dirs _ _ hlsdir d _
              (Or.inr (by rw [← hdx, hxs, hlsdir]))))
          · exact hpres d (Or.inr ⟨x, hxr, hcx, hdx⟩)
    · have hcb : dirs.contains s.dir = false := by
        simpa using hc
      have hmem : s.dir ∉ dirs := by
        simpa using hcb
      obtain ⟨locked1, t1, hrun, hall, hpres⟩ :=
        ih count0 locked w hcwd (fun x hx hcx => hok x (by simp [hx]) hcx)
      refine ⟨locked1, t1, ?_, hall, ?_⟩
      · rw [lockLoop, hcb]
        simpa [List.filter_cons, hcb, hmem] using hrun
      · rintro d (h | ⟨x, hx, hcx, hdx⟩)
        · exact hpres d (Or.inl h)
        · rcases List.mem_cons.mp hx with rfl | hxr
          · rw [hcx] at hcb
            cases hcb
          · exact hpres d (Or.inr ⟨x, hxr, hcx, hdx⟩)

/-- C9: unlike `install_deps`, `lock_deps` performs no unknown-name check:
names matching no effective source are silently skipped (no error is ever
reported), the returned count is exactly the number of effective sources
whose `dir` is in the name list, and each of those is locked into
`sources_locked` (and the file persisted) even when the list also contains
invalid names. -/
theorem lock_deps_skips_unknown_names_silently (c : Config) (names : List String)
    (obey : Bool) (w : World)
    (hne : names ≠ [])
    (hs : ∀ s ∈ c._get_sources (some obey), names.contains s.dir = true →
      s.repo ≠ "" ∧ s.dir ≠ "" ∧ ∃ r, w.fs.repos (c.location_path ++ [s.dir]) = some r) :
    ∃ c1 t,
      c.lock_deps names obey w =
        (.ok (((c._get_sources (some obey)).filter
            (fun s => names.contains s.dir)).length, c1),
         { w with cwd := c.location_path }, t) ∧
      t.all (fun e => !e.isLogError) = true ∧
      (((c._get_sources (some obey)).filter (fun s => names.contains s.dir)).length ≠ 0 →
        Effect.updateFileE ∈ t) ∧
      (∀ s ∈ c._get_sources (some obey), names.contains s.dir = true →
        ∃ x ∈ c1.sources_locked, x.dir = s.dir) := by
  have hdirs : (if names.isEmpty then
      (c._get_sources (some obey)).map (fun s => s.dir) else names) = names := by
    cases names with
    | nil => exact absurd rfl hne
    | cons a l => rfl
  set wL : World := { w with cwd := c.location_path } with hwL
  obtain ⟨locked1, t1, hrun, hall, hpres⟩ :=
    lockLoop_locks_matched c.location_path names (c._get_sources (some obey))
      0 c.sources_locked wL rfl
      (fun s hsm hcm => hs s hsm hcm)
  set len := ((c._get_sources (some obey)).filter
    (fun s => names.contains s.dir)).length with hlen
  by_cases hz : len = 0
  · refine ⟨{ c with sources_locked := locked1 }, [.cdE c.location_path] ++ t1,
      ?_, ?_, ?_, ?_⟩
    · rw [Config.lock_deps]
      simp only [hdirs]
      rw [run_bind, shellCd]
      simp only [hrun, ← hlen, run_bind, hz, ne_eq, not_true_eq_false,
        Bool.false_eq_true, if_false, run_pure, Nat.zero_add]
      simp [hz]
    · simpa [Effect.isLogError] using hall
    · intro hc
      exact absurd hz hc
    · intro s hsm hcm
      exact hpres s.dir (Or.inr ⟨s, hsm, hcm, rfl⟩)
  · refine ⟨{ c with sources_locked := locked1 },
      [.cdE c.location_path] ++ t1 ++ [.updateFileE], ?_, ?_, ?_, ?_⟩
    · rw [Config.lock_deps]
      simp only [hdirs]
      rw [run_bind, shellCd]
      simp only [hrun, ← hlen, run_bind, run_pure]
      simp [hz, yormUpdateFile]
    · simp only [List.all_append]
      simpa [Effect.isLogError] using hall
    · intro _
      simp
    · intro s hsm hcm
      exact hpres s.dir (Or.inr ⟨s, hsm, hcm, rfl⟩)

/-- Witness for C9: the name list `["dep", "bogus"]` against a project
declaring only `dep` locks `dep`, persists it, reports nothing, and
returns 1. -/
theorem lock_deps_skips_unknown_names_silently_w :
    (["dep", "bogus"] : List String) ≠ [] ∧
    ∃ c1 t,
      demoConfig.lock_deps ["dep", "bogus"] false demoWorldRoot =
        (.ok (1, c1), { demoWorldRoot with cwd := ["proj", "gdm_sources"] }, t) ∧
      t.all (fun e => !e.isLogError) = true ∧
      ((1 : Nat) ≠ 0 → Effect.updateFileE ∈ t) ∧
      (∀ s ∈ demoConfig._get_sources (some false),
        (["dep", "bogus"] : List String).contains s.dir = true →
        ∃ x ∈ c1.sources_locked, x.dir = s.dir) :=
  ⟨by decide,
   lock_deps_skips_unknown_names_silently demoConfig ["dep", "bogus"] false
     demoWorldRoot (by decide)
     (by
       intro s hsm hcm
       have hse : s = demoSource := by
         simpa [Config._get_sources, demoConfig] using hsm
       subst hse
       exact ⟨by decide, by decide, demoRepoClean, by decide⟩)⟩

/-- Checking out a revision that is already current on a tree with no
untracked modifications leaves the adapter state unchanged. -/
theorem checkout_of_current (r : RepoState) (rev : String) (clean : Bool)
    (hu : r.dirtyUntracked = false)
    (hm : rev = r.branch ∨ rev = r.hash ∨ rev = r.tag) :
    r.checkout rev clean = r := by
  unfold RepoState.checkout
  have h1 : (if clean then { r with dirtyUntracked := false } else r) = r := by
    cases r
    cases clean <;> simp_all
  rw [h1, if_pos hm]

/-- The complete run of `Source.update_files` over an existing working tree
that passes the dirty check: enter the tree, fetch exactly when `fetch` is
set or the target revision is not current, and check out the target
revision. -/
theorem update_files_run_clean (s : Source) (force fetch clean : Bool)
    (w : World) (r : RepoState)
    (hr : w.fs.repos (w.cwd ++ [s.dir]) = some r)
    (hpass : force = true ∨ r.reportsChanges clean = false) :
    s.update_files force fetch clean w =
      (.ok (),
       { w with
         cwd := w.cwd ++ [s.dir]
         fs := { w.fs with
           repos := Function.update w.fs.repos (w.cwd ++ [s.dir])
             (some (r.checkout s.rev clean)) } },
       [Effect.cdE (w.cwd ++ [s.dir])] ++
         (if fetch ∨ ¬(s.rev = r.branch ∨ s.rev = r.hash ∨ s.rev = r.tag) then
           [Effect.fetchE s.repo s.rev] else []) ++
         [Effect.checkoutE s.rev fetch clean]) := by
  have hex : w.fs.existsAt (w.cwd ++ [s.dir]) = true := by
    simp [FsState.existsAt, FsState.isDir, hr]
  have hcl : force = false → r.reportsChanges clean = false := by
    intro hf
    rcases hpass with hft | hc
    · rw [hf] at hft
      cases hft
    · exact hc
  by_cases hm : ¬s.rev = r.branch ∧ ¬s.rev = r.hash ∧ ¬s.rev = r.tag <;>
    cases hfe : fetch <;> cases hfo : force <;>
    first
      | (simp [Source.update_files, run_bind, run_getW, shellCdRel, gitChanges,
          gitRepoAt, gitGetBranch, gitGetHash, gitGetTag, gitFetch, gitUpdate,
          run_pure, hex, hr, hm]
         done)
      | (simp [Source.update_files, run_bind, run_getW, shellCdRel, gitChanges,
          gitRepoAt, gitGetBranch, gitGetHash, gitGetTag, gitFetch, gitUpdate,
          run_pure, hex, hr, hm, hcl hfo]
         done)

/-- `create_link` is a no-op for a Source without a link alias. -/
theorem create_link_none (s : Source) (root : FsPath) (force : Bool) (w : World)
    (h : s.link = none) :
    s.create_link root force w = (.ok (), w, []) := by
  simp [Source.create_link, h, run_pure]

/-- Re-linking an already-correct symlink restores the filesystem exactly:
the old link is removed and an identical one recreated. -/
theorem create_link_relink (s : Source) (root : FsPath) (force : Bool) (w : World)
    (l : String) (hl : s.link = some l)
    (hd : w.fs.isDir ((root ++ [l]).dropLast) = true)
    (hlink : w.fs.links (root ++ [l]) =
      some (relpath w.cwd ((root ++ [l]).dropLast))) :
    s.create_link root force w =
      (.ok (), w,
       [.rmLinkE (root ++ [l]),
        .lnE (relpath w.cwd ((root ++ [l]).dropLast)) (root ++ [l])]) := by
  have hisl : w.fs.isLink (root ++ [l]) = true := by
    simp [FsState.isLink, hlink]
  have hd2 : ({ w.fs with
      links := Function.update w.fs.links (root ++ [l]) none } : FsState).isDir
      ((root ++ [l]).dropLast) = true := by
    simpa [FsState.isDir] using hd
  simp only [Source.create_link, hl, run_bind, run_getW, osRemove, shellLn,
    run_pure, hisl, if_true, hd2, Bool.not_true, Bool.false_eq_true, if_false]
  simp only [Function.update_idem]
  rw [← hlink, Function.update_eq_self]
  simp

/-- Unpack `srcUpToDate` into its components. -/
theorem srcUpToDate_spec (fs : FsState) (locPath root : FsPath) (s : Source)
    (h : srcUpToDate fs locPath root s = true) :
    ∃ r, fs.repos (locPath ++ [s.dir]) = some r ∧
      r.dirtyTracked = false ∧ r.dirtyUntracked = false ∧
      (s.rev = r.branch ∨ s.rev = r.hash ∨ s.rev = r.tag) ∧
      (∀ l, s.link = some l →
        fs.isDir ((root ++ [l]).dropLast) = true ∧
        fs.links (root ++ [l]) =
          some (relpath (locPath ++ [s.dir]) ((root ++ [l]).dropLast))) := by
  unfold srcUpToDate at h
  rcases hrep : fs.repos (locPath ++ [s.dir]) with _ | r
  · rw [hrep] at h
    cases h
  · rw [hrep] at h
    simp only [Bool.and_eq_true, Bool.not_eq_true', Bool.or_eq_true,
      beq_iff_eq] at h
    obtain ⟨⟨⟨h1, h2⟩, h3⟩, h4⟩ := h
    refine ⟨r, rfl, h1, h2, by tauto, ?_⟩
    intro l hl
    rw [hl] at h4
    simp only [Bool.and_eq_true, beq_iff_eq] at h4
    exact h4

/-- The install loop over an up-to-date source list: every requested source
is visited without cloning or fetching, the filesystem and working
directory come back unchanged, and the value is the pure mirror
`upLoopCount`. -/
theorem installLoop_upToDate (nest : Config → GdmM Nat) (nestCount : Config → Nat)
    (P : Config → Prop) (locPath root : FsPath) (force clean : Bool) (fs0 : FsState)
    (hnest : ∀ cfg w', w'.fs = fs0 → P cfg →
      ∃ w2 t, nest cfg w' = (.ok (nestCount cfg), w2, t) ∧ w2.fs = fs0 ∧
        t.all (fun e => !e.isFetch) = true) :
    ∀ (sources : List Source) (dirs : List String) (w : World),
      w.cwd = locPath → w.fs = fs0 →
      (∀ s ∈ sources, srcUpToDate fs0 locPath root s = true ∧
        (∀ d, fs0.configs (locPath ++ [s.dir]) = some d →
          P (configOf (locPath ++ [s.dir]) d))) →
      ∃ t, installLoop nest locPath root force false clean sources dirs w =
        (.ok (upLoopCount nestCount fs0 locPath sources dirs), w, t) ∧
        t.all (fun e => !e.isFetch) = true := by
  intro sources
  induction sources with
  | nil =>
    intro dirs w hcwd hfs _
    exact ⟨[], by simp [installLoop, upLoopCount, run_pure], rfl⟩
  | cons s rest ih =>
    intro dirs w hcwd hfs hsrc
    by_cases hc : dirs.contains s.dir = true
    · obtain ⟨hup, hP⟩ := hsrc s (by simp)
      obtain ⟨r, hr, hdT, hdU, hm, hlinkc⟩ := srcUpToDate_spec fs0 locPath root s hup
      have hr2 : w.fs.repos (w.cwd ++ [s.dir]) = some r := by
        rw [hfs, hcwd]
        exact hr
      have hpass : force = true ∨ r.reportsChanges clean = false := by
        right
        simp [RepoState.reportsChanges, hdT, hdU]
      have hchk : r.checkout s.rev clean = r := checkout_of_current r s.rev clean hdU hm
      have hupdrepos : Function.update w.fs.repos (w.cwd ++ [s.dir]) (some r) =
          w.fs.repos := by
        rw [← hr2]
        exact Function.update_eq_self (w.cwd ++ [s.dir]) w.fs.repos
      have hupd : s.update_files force false clean w =
          (.ok (), { w with cwd := locPath ++ [s.dir] },
           [Effect.cdE (locPath ++ [s.dir]), Effect.checkoutE s.rev false clean]) := by
        rw [update_files_run_clean s force false clean w r hr2 hpass, hchk, hupdrepos]
        rw [hcwd]
        simp [hm]
      set w1 : World := { w with cwd := locPath ++ [s.dir] } with hw1
      have hw1fs : w1.fs = fs0 := hfs
      have hclink : ∃ tl, s.create_link root force w1 = (.ok (), w1, tl) ∧
          tl.all (fun e => !e.isFetch) = true := by
        rcases hlk : s.link with _ | l
        · exact ⟨[], create_link_none s root force w1 hlk, rfl⟩
        · obtain ⟨hld, hll⟩ := hlinkc l hlk
          refine ⟨_, create_link_relink s root force w1 l hlk ?_ ?_, rfl⟩
          · rw [hw1fs]
            exact hld
          · rw [hw1fs]
            show fs0.links (root ++ [l]) =
              some (relpath (locPath ++ [s.dir]) ((root ++ [l]).dropLast))
            exact hll
      obtain ⟨tl, hcl, htl⟩ := hclink
      have hnested : ∃ nval w2 tn,
          nestedInstall nest w1.cwd (w1.fs.configs w1.cwd) w1 = (.ok nval, w2, tn) ∧
          w2.fs = fs0 ∧ tn.all (fun e => !e.isFetch) = true ∧
          nval = (match fs0.configs (locPath ++ [s.dir]) with
                  | none => 0
                  | some d => nestCount (configOf (locPath ++ [s.dir]) d)) := by
        have hcwd1 : w1.cwd = locPath ++ [s.dir] := rfl
        rw [hcwd1, hw1fs]
        rcases hcf : fs0.configs (locPath ++ [s.dir]) with _ | d
        · exact ⟨0, w1, [], by simp [nestedInstall, run_pure], hw1fs, rfl, rfl⟩
        · obtain ⟨w2, tn, hn, hw2, htn⟩ :=
            hnest (configOf (locPath ++ [s.dir]) d) w1 hw1fs
              (hP d hcf)
          exact ⟨_, w2, tn, by simpa [nestedInstall] using hn, hw2, htn, rfl⟩
      obtain ⟨nval, w2, tn, hnst, hw2fs, htn, hnval⟩ := hnested
      have hw3 : ({ w2 with cwd := locPath } : World) = w := by
        cases w with
        | mk wc wf =>
          cases w2 with
          | mk w2c w2f =>
            simp only at hcwd hfs hw2fs
            simp [hcwd, hfs, hw2fs]
      rcases hulc : upLoopCount nestCount fs0 locPath rest (dirs.erase s.dir)
        with ⟨cnt, rem⟩
      obtain ⟨trest, hrest, htr⟩ := ih (dirs.erase s.dir) w hcwd hfs
        (fun x hx => hsrc x (by simp [hx]))
      refine ⟨[Effect.cdE (locPath ++ [s.dir]), Effect.checkoutE s.rev false clean] ++
        tl ++ tn ++ [Effect.cdE locPath] ++ trest, ?_, ?_⟩
      · rw [installLoop, if_pos hc]
        rw [run_bind, hupd]
        simp only [run_bind, run_getW, hcl, hnst, shellCd, hw3, hrest, hulc,
          run_pure]
        rw [upLoopCount, if_pos hc]
        simp [hulc, hnval]
      · simp only [List.all_append, htl, htn, htr]
        simp [Effect.isFetch]
    · have hcb : dirs.contains s.dir = false := by
        simpa using hc
      obtain ⟨trest, hrest, htr⟩ := ih dirs w hcwd hfs
        (fun x hx => hsrc x (by simp [hx]))
      refine ⟨trest, ?_, htr⟩
      rw [installLoop, hcb]
      rw [upLoopCount]
      rw [hcb]
      simpa using hrest

/-- `install_deps` on a fully up-to-date dependency tree (with `fetch`
unset): it completes, never fetches, leaves the filesystem untouched, and
returns the pure count `upCount` — a function of the configuration and the
(unchanged) filesystem only. -/
theorem install_deps_upToDate :
    ∀ (fuel : Nat) (c : Config) (names : List String) (depth : Option Nat)
      (update recurse force clean : Bool) (w : World),
      cfgUpToDate fuel update recurse c w.fs = true →
      ∃ w1 t,
        c.install_deps fuel names depth update recurse force false clean w =
          (.ok (upCount fuel c names depth update recurse w.fs), w1, t) ∧
        w1.fs = w.fs ∧
        t.all (fun e => !e.isFetch) = true := by
  intro fuel
  induction fuel with
  | zero =>
    intro c names depth update recurse force clean w h
    rw [cfgUpToDate] at h
    cases h
  | succ fuel ih =>
    intro c names depth update recurse force clean w h
    by_cases hd : depth = some 0
    · refine ⟨w, [], ?_, rfl, rfl⟩
      simp [Config.install_deps, hd, run_pure, upCount]
    · rw [cfgUpToDate] at h
      simp only [Bool.and_eq_true, List.all_eq_true] at h
      obtain ⟨hdir, hall⟩ := h
      have hsrcs : ∀ s ∈ c._get_sources (if update then some false else none),
          srcUpToDate w.fs c.location_path c.root s = true ∧
          (∀ d, w.fs.configs (c.location_path ++ [s.dir]) = some d →
            cfgUpToDate fuel (update && recurse) recurse
              (configOf (c.location_path ++ [s.dir]) d) w.fs = true) := by
        intro s hs
        have hx := hall s hs
        simp only [Bool.and_eq_true] at hx
        refine ⟨hx.1, ?_⟩
        intro d hdc
        have hx2 := hx.2
        rw [hdc] at hx2
        exact hx2
      have hnest : ∀ cfg w', w'.fs = w.fs →
          cfgUpToDate fuel (update && recurse) recurse cfg w.fs = true →
          ∃ w2 t,
            cfg.install_deps fuel [] (depth.map (· - 1)) (update && recurse)
              recurse force false clean w' =
              (.ok (upCount fuel cfg [] (depth.map (· - 1)) (update && recurse)
                recurse w.fs), w2, t) ∧
            w2.fs = w.fs ∧ t.all (fun e => !e.isFetch) = true := by
        intro cfg w' hw' hcfg
        obtain ⟨w2, t, hrun, hfs2, ht⟩ :=
          ih cfg [] (depth.map (· - 1)) (update && recurse) recurse force clean w'
            (by rw [hw']; exact hcfg)
        rw [hw'] at hrun hfs2
        exact ⟨w2, t, hrun, hfs2, ht⟩
      obtain ⟨tloop, hloop, htl⟩ :=
        installLoop_upToDate
          (fun cfg => cfg.install_deps fuel [] (depth.map (· - 1))
            (update && recurse) recurse force false clean)
          (fun cfg => upCount fuel cfg [] (depth.map (· - 1)) (update && recurse)
            recurse w.fs)
          (fun cfg => cfgUpToDate fuel (update && recurse) recurse cfg w.fs = true)
          c.location_path c.root force clean w.fs hnest
          (c._get_sources (if update then some false else none))
          (if names.isEmpty then
            (c._get_sources (if update then some false else none)).map
              (fun s => s.dir)
           else names)
          { w with cwd := c.location_path } rfl rfl hsrcs
      rcases hulc : upLoopCount
          (fun cfg => upCount fuel cfg [] (depth.map (· - 1)) (update && recurse)
            recurse w.fs)
          w.fs c.location_path
          (c._get_sources (if update then some false else none))
          (if names.isEmpty then
            (c._get_sources (if update then some false else none)).map
              (fun s => s.dir)
           else names) with ⟨cnt, rem⟩
      rw [hulc] at hloop
      have hup : upCount (fuel + 1) c names depth update recurse w.fs =
          (if rem.isEmpty then cnt else 0) := by
        rw [upCount]
        rw [if_neg hd]
        simp only [hulc]
      by_cases hre : rem.isEmpty = true
      · refine ⟨{ w with cwd := c.location_path },
          [Effect.cdE c.location_path] ++ tloop, ?_, rfl, ?_⟩
        · rw [Config.install_deps, if_neg hd]
          simp only [run_bind, run_getW, hdir, Bool.not_true, Bool.false_eq_true,
            if_false, run_pure, shellCd, hloop, hre, if_true, hup]
          simp [hre]
        · simpa [Effect.isFetch] using htl
      · have hre2 : rem.isEmpty = false := by
          simpa using hre
        refine ⟨{ w with cwd := c.location_path },
          [Effect.cdE c.location_path] ++ tloop ++
            [Effect.logErrorE ("No such dependency: " ++
              String.intercalate " " rem)], ?_, rfl, ?_⟩
        · rw [Config.install_deps, if_neg hd]
          simp only [run_bind, run_getW, hdir, Bool.not_true, Bool.false_eq_true,
            if_false, run_pure, shellCd, hloop, hre2, logError, hup]
          simp [hre2]
        · simp only [List.all_append, htl]
          simp [Effect.isFetch]

/-- C5: during `update_files`, the remote ref is fetched exactly when
`fetch` is set or the adapter reports that none of the current branch, hash
or tag equals the target revision; consequently, running `install_deps`
(with `fetch` unset) on an already up-to-date tree performs no fetch, and
running it twice in a row with identical arguments performs no fetch either
time and returns the same count both times. -/
theorem fetch_policy_and_install_idempotence :
    (∀ (s : Source) (force fetch clean : Bool) (w : World) (r : RepoState),
      w.fs.repos (w.cwd ++ [s.dir]) = some r →
      (force = true ∨ r.reportsChanges clean = false) →
      ∃ w1 t, s.update_files force fetch clean w = (.ok (), w1, t) ∧
        ((∃ u v, Effect.fetchE u v ∈ t) ↔
          (fetch = true ∨
            ¬(s.rev = r.branch ∨ s.rev = r.hash ∨ s.rev = r.tag)))) ∧
    (∀ (fuel : Nat) (c : Config) (names : List String) (depth : Option Nat)
      (update recurse force clean : Bool) (w : World),
      cfgUpToDate fuel update recurse c w.fs = true →
      ∃ n w1 t1 w2 t2,
        c.install_deps fuel names depth update recurse force false clean w =
          (.ok n, w1, t1) ∧
        c.install_deps fuel names depth update recurse force false clean w1 =
          (.ok n, w2, t2) ∧
        t1.all (fun e => !e.isFetch) = true ∧
        t2.all (fun e => !e.isFetch) = true) := by
  constructor
  · intro s force fetch clean w r hr hpass
    rw [update_files_run_clean s force fetch clean w r hr hpass]
    refine ⟨_, _, rfl, ?_⟩
    by_cases hcond : fetch = true ∨ ¬(s.rev = r.branch ∨ s.rev = r.hash ∨
      s.rev = r.tag)
    · rw [if_pos hcond]
      constructor
      · intro _
        exact hcond
      · intro _
        exact ⟨s.repo, s.rev, by simp⟩
    · rw [if_neg hcond]
      constructor
      · rintro ⟨u, v, hmem⟩
        simp at hmem
      · intro hx
        exact absurd hx hcond
  · intro fuel c names depth update recurse force clean w h
    obtain ⟨w1, t1, h1, hfs1, ht1⟩ :=
      install_deps_upToDate fuel c names depth update recurse force clean w h
    have h2pre : cfgUpToDate fuel update recurse c w1.fs = true := by
      rw [hfs1]
      exact h
    obtain ⟨w2, t2, h2, _, ht2⟩ :=
      install_deps_upToDate fuel c names depth update recurse force clean w1 h2pre
    rw [hfs1] at h2
    exact ⟨_, w1, t1, w2, t2, h1, h2, ht1, ht2⟩

/-- Witness for C5: an up-to-date clone of `demoSource` is not fetched, and
a double install over the up-to-date demo project returns equal counts with
no fetch in either run. -/
theorem fetch_policy_and_install_idempotence_w :
    (demoWorldLoc.fs.repos (demoWorldLoc.cwd ++ [demoSource.dir]) =
        some demoRepoClean ∧
      (false = true ∨ demoRepoClean.reportsChanges true = false) ∧
      ∃ w1 t, demoSource.update_files false false true demoWorldLoc =
          (.ok (), w1, t) ∧
        ((∃ u v, Effect.fetchE u v ∈ t) ↔
          (false = true ∨ ¬(demoSource.rev = demoRepoClean.branch ∨
            demoSource.rev = demoRepoClean.hash ∨
            demoSource.rev = demoRepoClean.tag)))) ∧
    (cfgUpToDate 1 false false demoConfig demoWorldRoot.fs = true ∧
      ∃ n w1 t1 w2 t2,
        demoConfig.install_deps 1 [] none false false false false true
            demoWorldRoot = (.ok n, w1, t1) ∧
        demoConfig.install_deps 1 [] none false false false false true w1 =
          (.ok n, w2, t2) ∧
        t1.all (fun e => !e.isFetch) = true ∧
        t2.all (fun e => !e.isFetch) = true) :=
  ⟨⟨by decide, by decide,
    fetch_policy_and_install_idempotence.1 demoSource false false true
      demoWorldLoc demoRepoClean (by decide) (by decide)⟩,
   ⟨by decide,
    fetch_policy_and_install_idempotence.2 1 demoConfig [] none false false
      false true demoWorldRoot (by decide)⟩⟩
